import Mathlib

/-!
Shallow embedding of `es_distributed/es.py` (the distributed
evolution-strategies engine): the data model and the operations of the
master/worker protocol, with numpy float arrays modelled as lists of exact
rationals and Python exceptions modelled as `Except`/`Option`.
-/

namespace ES

/-- `RunningStat` (es.py lines 25-47): streaming sum / sum-of-squares / count
accumulator over a vector of fixed shape.  Floats are modelled as `ℚ`. -/
structure RunningStat where
  sum : List ℚ
  sumsq : List ℚ
  count : ℚ
deriving DecidableEq

/-- `RunningStat.__init__(shape, eps)` (lines 26-29): `sum` is all zeros,
`sumsq` is filled with `eps`, and `count = eps`. -/
def RunningStat.init (shape : Nat) (eps : ℚ) : RunningStat :=
  ⟨List.replicate shape 0, List.replicate shape eps, eps⟩

/-- `RunningStat.increment(s, ssq, c)` (lines 31-34): entrywise sums plus a
count increment. -/
def RunningStat.increment (rs : RunningStat) (s ssq : List ℚ) (c : ℚ) : RunningStat :=
  ⟨rs.sum.zipWith (· + ·) s, rs.sumsq.zipWith (· + ·) ssq, rs.count + c⟩

/-- The `mean` property (lines 36-38): `sum / count`, entrywise. -/
def RunningStat.mean (rs : RunningStat) : List ℚ :=
  rs.sum.map (· / rs.count)

/-- The radicand of the `std` property (lines 40-42):
`maximum(sumsq / count - square(mean), 1e-2)`, entrywise. -/
def RunningStat.stdSq (rs : RunningStat) : List ℚ :=
  (rs.sumsq.zip rs.mean).map (fun p => max (p.1 / rs.count - p.2 ^ 2) (1 / 100))

/-- `v` is the value of the `std` property of `rs` (line 42,
`sqrt(maximum(sumsq / count - square(mean), 1e-2))`): entrywise the
nonnegative square root of `stdSq`, stated exactly over `ℚ`. -/
def RunningStat.stdIs (rs : RunningStat) (v : List ℚ) : Prop :=
  v.length = rs.stdSq.length ∧
    ∀ i, i < v.length → 0 ≤ v.getD i 0 ∧ (v.getD i 0) ^ 2 = rs.stdSq.getD i 0

/-- `RunningStat.set_from_init(init_mean, init_std, init_count)`
(lines 44-47): overwrites the accumulator with
`sum = init_mean * init_count`,
`sumsq = (square(init_mean) + square(init_std)) * init_count`,
`count = init_count`. -/
def RunningStat.set_from_init (rs : RunningStat) (init_mean init_std : List ℚ)
    (init_count : ℚ) : RunningStat :=
  ⟨init_mean.map (· * init_count),
   (init_mean.zip init_std).map (fun p => (p.1 ^ 2 + p.2 ^ 2) * init_count),
   init_count⟩

/-- `SharedNoiseTable` (lines 50-66): only the table's contents matter for
`get`, so the model carries the sampled array itself. -/
structure SharedNoiseTable where
  noise : List ℚ
deriving DecidableEq

/-- `SharedNoiseTable.get(i, dim) = self.noise[i : i + dim]` (lines 62-63):
a Python slice, which silently truncates at the end of the array. -/
def SharedNoiseTable.get (t : SharedNoiseTable) (i dim : Nat) : List ℚ :=
  (t.noise.drop i).take dim

/-- The stable comparison behind `x.argsort()` on a 1-d array: by value,
with ties broken by position (the deterministic stable tie-break the spec
describes; out-of-range indices read the default 0, and are never used). -/
def RankLE (x : List ℚ) (i j : Nat) : Prop :=
  x.getD i 0 < x.getD j 0 ∨ (x.getD i 0 = x.getD j 0 ∧ i ≤ j)

instance (x : List ℚ) : DecidableRel (RankLE x) := fun i j => by
  unfold RankLE
  infer_instance

instance (x : List ℚ) : IsTotal Nat (RankLE x) where
  total i j := by
    rcases lt_trichotomy (x.getD i 0) (x.getD j 0) with h | h | h
    · exact Or.inl (Or.inl h)
    · rcases Nat.le_total i j with hij | hij
      · exact Or.inl (Or.inr ⟨h, hij⟩)
      · exact Or.inr (Or.inr ⟨h.symm, hij⟩)
    · exact Or.inr (Or.inl h)

instance (x : List ℚ) : IsTrans Nat (RankLE x) where
  trans i j k hij hjk := by
    rcases hij with h1 | ⟨e1, l1⟩
    · rcases hjk with h2 | ⟨e2, _⟩
      · exact Or.inl (h1.trans h2)
      · exact Or.inl (e2 ▸ h1)
    · rcases hjk with h2 | ⟨e2, l2⟩
      · exact Or.inl (e1 ▸ h2)
      · exact Or.inr ⟨e1.trans e2, l1.trans l2⟩

/-- `x.argsort()` (line 76): the indices `0, …, n-1` sorted stably by
value. -/
def argsort (x : List ℚ) : List Nat :=
  (List.range x.length).insertionSort (RankLE x)

/-- `compute_ranks(x)` (lines 69-77): `ranks[x.argsort()] = arange(len(x))`,
so entry `i` of the output is the position of `i` in the argsort order. -/
def compute_ranks (x : List ℚ) : List Nat :=
  (List.range x.length).map (fun i => (argsort x).indexOf i)

/-- `compute_centered_ranks(x)` (lines 80-84) on the flattened array:
ranks cast to rationals, divided by `x.size - 1`, shifted by `-1/2`. -/
def compute_centered_ranks (x : List ℚ) : List ℚ :=
  (compute_ranks x).map (fun r : Nat => (r : ℚ) / ((x.length : ℚ) - 1) - 1 / 2)

/-- `itergroups(items, group_size)` (lines 94-103): consecutive chunks of
`group_size` items, with a shorter final chunk when the length does not
divide evenly. -/
def itergroups {α : Type} (gsize : Nat) : List α → List (List α)
  | [] => []
  | x :: xs =>
    (x :: xs.take (gsize - 1)) :: itergroups gsize (xs.drop (gsize - 1))
termination_by l => l.length
decreasing_by
  simp only [List.length_drop, List.length_cons]
  omega

/-- The exact-arithmetic dot product `np.dot(batch_weights, batch_vecs)`
of a chunk: `Σ wᵢ • vᵢ`, with the vectors living in an additive monoid `M`
with rational scalars. -/
def dotQ {M : Type} [AddCommMonoid M] [SMul ℚ M] (ws : List ℚ) (vs : List M) : M :=
  ((ws.zip vs).map (fun p => p.1 • p.2)).sum

/-- `batched_weighted_sum(weights, vecs, batch_size)` (lines 106-113):
zip the two chunk streams, accumulate each chunk's dot product into the
running total and each chunk's length into the running count. -/
def batched_weighted_sum {M : Type} [AddCommMonoid M] [SMul ℚ M]
    (weights : List ℚ) (vecs : List M) (batch_size : Nat) : M × Nat :=
  ((itergroups batch_size weights).zip (itergroups batch_size vecs)).foldl
    (fun acc p => (acc.1 + dotQ p.1 p.2, acc.2 + p.1.length)) (0, 0)

/-- The `Config` namedtuple (lines 11-15).  Counts are naturals, float
fields are rationals, the two mode fields stay strings (they are parsed /
dispatched on at runtime). -/
structure Config where
  l2coeff : ℚ
  noise_stdev : ℚ
  episodes_per_batch : Nat
  timesteps_per_batch : Nat
  calc_obstat_prob : ℚ
  eval_prob : ℚ
  snapshot_freq : Nat
  return_proc_mode : String
  episode_cutoff_mode : String
deriving DecidableEq

/-- The `Task` namedtuple (line 16).  `ob_mean` / `ob_std` are observation
statistics passed through to workers; no claim reads them (and `std` is an
irrational square root), so the model carries the fields the claims use:
the parameter snapshot and the timestep limit (`None` under
`env_default`). -/
structure Task where
  params : List ℚ
  timestep_limit : Option Int
deriving DecidableEq

/-- The payload of a noise-mode `Result` (lines 17-22, 370-381):
`noise_inds_n` of length `n`, the `n×2` arrays as lists of (pos, neg)
pairs, and the partial observation statistics. -/
structure NoiseData where
  noise_inds_n : List Nat
  returns_n2 : List (ℚ × ℚ)
  signreturns_n2 : List (ℚ × ℚ)
  lengths_n2 : List (Nat × Nat)
  ob_sum : List ℚ
  ob_sumsq : List ℚ
  ob_count : ℚ
deriving DecidableEq

/-- The two mutually exclusive `Result` variants: an eval job (lines
330-347, `eval_return`/`eval_length` set, everything else `None`) or a
noise job (lines 348-381). -/
inductive ResultBody where
  | eval (eval_return : ℚ) (eval_length : Nat)
  | noise (data : NoiseData)
deriving DecidableEq

/-- A `Result` as the master pops it: the reporting worker's id plus one of
the two variant payloads. -/
structure Result where
  worker_id : Nat
  body : ResultBody
deriving DecidableEq

/-- `result.lengths_n2.size` for a noise result: each of the `n` rows holds
an antithetic pair, so `2n` episodes. -/
def NoiseData.numEpisodes (r : NoiseData) : Nat := 2 * r.lengths_n2.length

/-- `result.lengths_n2.sum()` for a noise result. -/
def NoiseData.numTimesteps (r : NoiseData) : Nat :=
  (r.lengths_n2.map (fun p => p.1 + p.2)).sum

/-- Episodes a popped result contributes to the global counter (line 192
for eval results, line 206 for noise results). -/
def Result.numEpisodes : Result → Nat
  | ⟨_, .eval _ _⟩ => 1
  | ⟨_, .noise r⟩ => r.numEpisodes

/-- Timesteps a popped result contributes to the global counter (line 193
for eval results, line 207 for noise results). -/
def Result.numTimesteps : Result → Nat
  | ⟨_, .eval _ len⟩ => len
  | ⟨_, .noise r⟩ => r.numTimesteps

/-- Whether the result is a noise-mode result (`eval_length is None`,
line 190). -/
def Result.isNoise : Result → Bool
  | ⟨_, .eval _ _⟩ => false
  | ⟨_, .noise _⟩ => true

/-- The mutable state of the master's COLLECT phase (lines 181-182), plus
the two run-wide counters `episodes_so_far` / `timesteps_so_far`
(lines 162-163) that the loop also updates. -/
structure CollectState where
  curr_task_results : List NoiseData
  eval_rets : List ℚ
  eval_lens : List Nat
  worker_ids : List Nat
  ob_stat : RunningStat
  num_results_skipped : Nat
  num_episodes_popped : Nat
  num_timesteps_popped : Nat
  ob_count_this_batch : ℚ
  episodes_so_far : Nat
  timesteps_so_far : Nat
deriving DecidableEq

/-- The fresh per-iteration collect state (lines 181-182), with the
carried-over global counters. -/
def initCollectState (ob_stat : RunningStat) (episodes_so_far timesteps_so_far : Nat) :
    CollectState :=
  { curr_task_results := [], eval_rets := [], eval_lens := [], worker_ids := [],
    ob_stat := ob_stat, num_results_skipped := 0, num_episodes_popped := 0,
    num_timesteps_popped := 0, ob_count_this_batch := 0,
    episodes_so_far := episodes_so_far, timesteps_so_far := timesteps_so_far }

/-- The body of the COLLECT loop for one popped `(task_id, result)`
(lines 185-218): record the worker id; an eval result bumps the global
counters and is stored only when it targets the current task; a noise
result bumps the global counters, and only when it targets the current
task is it stored, counted into the per-task counters and (if the policy
needs observation stats and `ob_count > 0`) merged into `ob_stat`;
otherwise it counts as skipped. -/
def processResult (needs_ob_stat : Bool) (curr_task_id : Nat)
    (s : CollectState) (task_id : Nat) (result : Result) : CollectState :=
  let s := { s with worker_ids := s.worker_ids ++ [result.worker_id] }
  match result.body with
  | .eval ret len =>
    let s := { s with episodes_so_far := s.episodes_so_far + 1,
                      timesteps_so_far := s.timesteps_so_far + len }
    if task_id = curr_task_id then
      { s with eval_rets := s.eval_rets ++ [ret], eval_lens := s.eval_lens ++ [len] }
    else s
  | .noise r =>
    let s := { s with episodes_so_far := s.episodes_so_far + r.numEpisodes,
                      timesteps_so_far := s.timesteps_so_far + r.numTimesteps }
    if task_id = curr_task_id then
      let s := { s with curr_task_results := s.curr_task_results ++ [r],
                        num_episodes_popped := s.num_episodes_popped + r.numEpisodes,
                        num_timesteps_popped := s.num_timesteps_popped + r.numTimesteps }
      if needs_ob_stat ∧ 0 < r.ob_count then
        { s with ob_stat := s.ob_stat.increment r.ob_sum r.ob_sumsq r.ob_count,
                 ob_count_this_batch := s.ob_count_this_batch + r.ob_count }
      else s
    else { s with num_results_skipped := s.num_results_skipped + 1 }

/-- The COLLECT loop (line 183): keep popping while
`num_episodes_popped < episodes_per_batch or
num_timesteps_popped < timesteps_per_batch`.  The blocking queue is
modelled as the finite list of results it would deliver in order; `none`
means the loop is still blocked when that list runs out. -/
def collectLoop (epb tpb : Nat) (needs_ob_stat : Bool) (curr_task_id : Nat) :
    CollectState → List (Nat × Result) → Option CollectState
  | s, msgs =>
    if epb ≤ s.num_episodes_popped ∧ tpb ≤ s.num_timesteps_popped then some s
    else
      match msgs with
      | [] => none
      | m :: rest =>
        collectLoop epb tpb needs_ob_stat curr_task_id
          (processResult needs_ob_stat curr_task_id s m.1 m.2) rest

/-- Python's `str.split(sep)` on a list of characters: always at least one
piece, empty pieces kept. -/
def pySplit (sep : Char) : List Char → List (List Char)
  | [] => [[]]
  | c :: rest =>
    match pySplit sep rest with
    | g :: gs => if c = sep then [] :: g :: gs else (c :: g) :: gs
    | [] => [[]]

/-- The numeric value of a decimal digit. -/
def digitVal? (c : Char) : Option Nat :=
  if '0' ≤ c ∧ c ≤ '9' then some (c.toNat - '0'.toNat) else none

/-- Python `int(s)` on an unsigned run of decimal digits. -/
def charsToNat? (l : List Char) : Option Nat :=
  match l with
  | [] => none
  | _ =>
    l.foldl (fun acc c =>
      match acc, digitVal? c with
      | some n, some d => some (10 * n + d)
      | _, _ => none) (some 0)

/-- Python `int(s)` on an optionally `-`-signed decimal literal. -/
def charsToInt? (l : List Char) : Option Int :=
  match l with
  | '-' :: rest => (charsToNat? rest).map (fun n => -(n : Int))
  | _ => (charsToNat? l).map (fun n => (n : Int))

/-- Python `float(s)` on an unsigned plain decimal literal
(`digits` or `digits.digits`). -/
def charsToPosDecQ? (l : List Char) : Option ℚ :=
  match pySplit '.' l with
  | [a] => (charsToNat? a).map (fun n => (n : ℚ))
  | [a, b] =>
    match charsToNat? a, charsToNat? b with
    | some n, some f => some ((n : ℚ) + (f : ℚ) / (10 : ℚ) ^ b.length)
    | _, _ => none
  | _ => none

/-- Python `float(s)` on an optionally `-`-signed plain decimal literal. -/
def charsToDecQ? (l : List Char) : Option ℚ :=
  match l with
  | '-' :: rest => (charsToPosDecQ? rest).map Neg.neg
  | _ => charsToPosDecQ? l

/-- The timestep-limit state `run_master` sets up from
`config.episode_cutoff_mode` at startup (lines 148-160). -/
structure TsStartup where
  tslimit : Option Int
  incr_tslimit_threshold : Option ℚ
  tslimit_incr_ratio : Option ℚ
  adaptive_tslimit : Bool
deriving DecidableEq

/-- The startup validation of `episode_cutoff_mode` (lines 148-160):
`adaptive:<int>,<float>,<float>` or `env_default`; anything else raises
(`NotImplementedError`, or the `ValueError`s of `split` / `int` /
`float`), modelled as `Except.error`.  Numeric literals are modelled in
their plain decimal forms. -/
def parse_episode_cutoff_mode (mode : String) : Except String TsStartup :=
  if mode.data.take 9 = "adaptive:".data then
    match pySplit ':' mode.data with
    | [_, args] =>
      match pySplit ',' args with
      | [a0, a1, a2] =>
        match charsToInt? a0, charsToDecQ? a1, charsToDecQ? a2 with
        | some t, some th, some ra => .ok ⟨some t, some th, some ra, true⟩
        | _, _, _ => .error mode
      | _ => .error mode
    | _ => .error mode
  else if mode = "env_default" then .ok ⟨none, none, none, false⟩
  else .error mode

/-- The fatal configuration validation `run_master` performs before its
main loop (lines 129-165): of the claims' concerns, only
`episode_cutoff_mode` is checked there; `return_proc_mode` is not
inspected before the loop. -/
def masterStartup (cfg : Config) : Except String TsStartup :=
  parse_episode_cutoff_mode cfg.episode_cutoff_mode

/-- Row-major flattening of an `n×2` array (`ravel()`). -/
def flattenPairs (l : List (ℚ × ℚ)) : List ℚ :=
  l.flatMap (fun p => [p.1, p.2])

/-- `proc[:, 0] - proc[:, 1]` read off the row-major flattened processed
array. -/
def pairDiffs : List ℚ → List ℚ
  | a :: b :: rest => (a - b) :: pairDiffs rest
  | _ => []

/-- The noise vector `noise.get(idx, num_params)` read entrywise as a
vector of dimension `num_params` (entries past the table end read 0;
indices sampled by workers always satisfy `idx + num_params ≤ len`). -/
def noiseVec (t : SharedNoiseTable) (idx num_params : Nat) : Fin num_params → ℚ :=
  fun k => (t.get idx num_params).getD k 0

/-- Lines 231-239: the return processing dispatch on `return_proc_mode`,
over the row-major flattened concatenated `returns_n2` and
`signreturns_n2`; an unknown mode raises `NotImplementedError` (here
`Except.error`). -/
def processReturns (mode : String) (returns_flat signreturns_flat : List ℚ) :
    Except String (List ℚ) :=
  if mode = "centered_rank" then .ok (compute_centered_ranks returns_flat)
  else if mode = "sign" then .ok signreturns_flat
  else if mode = "centered_sign_rank" then .ok (compute_centered_ranks signreturns_flat)
  else .error mode

/-- The AGGREGATE phase (lines 226-247): concatenate the accepted
results' arrays, process the returns, and compute
`g = batched_weighted_sum(proc[:,0] - proc[:,1], noise.get(idx, num_params)
for idx in noise_inds_n, 500) / returns_n2.size`. -/
def aggregate (mode : String) (t : SharedNoiseTable) (num_params : Nat)
    (results : List NoiseData) : Except String (Fin num_params → ℚ) :=
  let noise_inds_n := (results.map (fun r => r.noise_inds_n)).flatten
  let returns_flat := flattenPairs ((results.map (fun r => r.returns_n2)).flatten)
  let signreturns_flat := flattenPairs ((results.map (fun r => r.signreturns_n2)).flatten)
  match processReturns mode returns_flat signreturns_flat with
  | .error e => .error e
  | .ok proc =>
    .ok (((returns_flat.length : ℚ))⁻¹ •
      (batched_weighted_sum (pairDiffs proc)
        (noise_inds_n.map (fun idx => noiseVec t idx num_params)) 500).1)

/-- One iteration of `run_master`'s loop (lines 167-247) up to the
gradient: the `Task` is declared first (line 172), then the COLLECT loop
runs, then AGGREGATE; `none` in the second component means the blocking
COLLECT loop never got enough results. -/
def master_first_iteration (cfg : Config) (t : SharedNoiseTable) (num_params : Nat)
    (theta : List ℚ) (ob_stat : RunningStat) (needs_ob_stat : Bool)
    (tslimit : Option Int) (curr_task_id : Nat) (msgs : List (Nat × Result)) :
    Task × Option (Except String (Fin num_params → ℚ)) :=
  let task : Task := { params := theta, timestep_limit := tslimit }
  match collectLoop cfg.episodes_per_batch cfg.timesteps_per_batch needs_ob_stat
      curr_task_id (initCollectState ob_stat 0 0) msgs with
  | none => (task, none)
  | some s => (task, some (aggregate cfg.return_proc_mode t num_params s.curr_task_results))

/-- This iteration's episode lengths, row-major (`lengths_n2`
flattened). -/
def flattenLengths (l : List (Nat × Nat)) : List Nat :=
  l.flatMap (fun p => [p.1, p.2])

/-- `(lengths_n2 == tslimit).mean()` (line 255): the fraction of episode
lengths exactly equal to the limit (`0` on the empty array). -/
def fracAtLimit (lengths : List Nat) (tslimit : Int) : ℚ :=
  ((lengths.countP (fun x => (x : Int) == tslimit)) : ℚ) / (lengths.length : ℚ)

/-- Python `int(q)` on a float: truncation toward zero. -/
def truncQ (q : ℚ) : Int := if 0 ≤ q then ⌊q⌋ else ⌈q⌉

/-- The ADAPT step (lines 254-258): only with an adaptive cutoff, and only
when the at-limit fraction reaches the threshold, does the limit become
`int(tslimit_incr_ratio * tslimit)`. -/
def adapt_tslimit (adaptive : Bool) (threshold ratio : ℚ)
    (lengths_n2 : List (Nat × Nat)) (tslimit : Option Int) : Option Int :=
  if adaptive ∧ threshold ≤ fracAtLimit (flattenLengths lengths_n2) (tslimit.getD 0)
  then some (truncQ (ratio * ((tslimit.getD 0 : Int) : ℚ)))
  else tslimit

end ES

deriving instance DecidableEq for Except

namespace ES

/-! ## Helper lemmas -/

lemma getD_map_lt {α β : Type} (f : α → β) (l : List α) {i : Nat} (a : α) (b : β)
    (hi : i < l.length) : (l.map f).getD i b = f (l.getD i a) := by
  rw [List.getD_eq_getElem?_getD, List.getD_eq_getElem?_getD,
    List.getElem?_eq_getElem (by simpa using hi), List.getElem?_eq_getElem hi]
  simp

lemma getD_mem_of_lt {α : Type} (l : List α) {i : Nat} (d : α) (hi : i < l.length) :
    l.getD i d ∈ l := by
  rw [List.getD_eq_getElem?_getD, List.getElem?_eq_getElem hi]
  simp [List.getElem_mem]

/-! ## C3: SharedNoiseTable.get -/

/-- **C3** (amended): `get i dim` returns the contiguous sub-range
`[i, i+dim)` clipped to the table — length `min dim (len - i)`, entry `k`
equal to the table's entry at offset `i + k` — and its length is exactly
`dim` whenever `i + dim ≤ len`.  When `i + dim` exceeds the table length
it silently returns the shorter clipped slice instead of failing. -/
theorem c3_get_slice (t : SharedNoiseTable) (i dim : Nat) :
    (t.get i dim).length = min dim (t.noise.length - i) ∧
    (∀ k, k < dim → i + k < t.noise.length →
      (t.get i dim).getD k 0 = t.noise.getD (i + k) 0) ∧
    (i + dim ≤ t.noise.length → (t.get i dim).length = dim) := by
  refine ⟨?_, ?_, ?_⟩
  · simp [SharedNoiseTable.get]
  · intro k hk hik
    have hlen : k < (t.get i dim).length := by
      simp only [SharedNoiseTable.get, List.length_take, List.length_drop]
      omega
    rw [List.getD_eq_getElem?_getD, List.getElem?_eq_getElem hlen,
      List.getD_eq_getElem?_getD, List.getElem?_eq_getElem hik]
    simp [SharedNoiseTable.get, List.getElem_take, List.getElem_drop]
  · intro h
    simp only [SharedNoiseTable.get, List.length_take, List.length_drop]
    omega

/-- **C3** counterexample to the claim as stated: on a 3-entry table,
`get 2 2` reaches past the end and returns the 1-element slice `[3]`
(no failure), not a slice of length 2. -/
theorem c3_counterexample :
    (SharedNoiseTable.mk [1, 2, 3]).get 2 2 = [3] ∧
    ((SharedNoiseTable.mk [1, 2, 3]).get 2 2).length ≠ 2 := by
  constructor <;> decide

/-! ## C6: RunningStat count positivity -/

/-- **C6** (amended): a `RunningStat` constructed with a positive `eps`
(such as the master's `ob_stat` with `eps = 1e-2`, lines 140-143) has
`count > 0`, and `count > 0` is preserved by `increment` with a
nonnegative count delta and by `set_from_init` with a positive
`init_count`.  (The worker's per-task instance is constructed with
`eps = 0`, line 351, so not every instance satisfies `count > 0`.) -/
theorem c6_count_pos :
    (∀ shape : Nat, ∀ eps : ℚ, 0 < eps → 0 < (RunningStat.init shape eps).count) ∧
    (∀ shape : Nat, 0 < (RunningStat.init shape (1 / 100)).count) ∧
    (∀ rs : RunningStat, ∀ s ssq : List ℚ, ∀ c : ℚ,
      0 < rs.count → 0 ≤ c → 0 < (rs.increment s ssq c).count) ∧
    (∀ rs : RunningStat, ∀ m sd : List ℚ, ∀ c : ℚ,
      0 < c → 0 < (rs.set_from_init m sd c).count) := by
  refine ⟨fun _ _ h => h, fun _ => by norm_num [RunningStat.init], ?_, fun _ _ _ _ h => h⟩
  intro rs s ssq c h hc
  simpa [RunningStat.increment] using add_pos_of_pos_of_nonneg h hc

/-- **C6** counterexample to the claim as stated: the worker's per-task
accumulator `RunningStat(shape, eps=0.)` (line 351) starts with
`count = 0`, so not every instance satisfies `count > 0` at all times. -/
theorem c6_counterexample : ¬ 0 < (RunningStat.init 3 0).count := by
  simp [RunningStat.init]

/-! ## C10: set_from_init round trip -/

lemma stdSq_set_from_init (rs : RunningStat) (c : ℚ) (hc0 : c ≠ 0) :
    ∀ (m sd : List ℚ), m.length = sd.length →
      (rs.set_from_init m sd c).stdSq = sd.map (fun q => max (q ^ 2) (1 / 100))
  | [], [], _ => by
    simp [RunningStat.set_from_init, RunningStat.stdSq, RunningStat.mean]
  | [], q :: sd, h => by simp at h
  | a :: m, [], h => by simp at h
  | a :: m, q :: sd, h => by
    have ih := stdSq_set_from_init rs c hc0 m sd (by simpa using h)
    simp only [RunningStat.set_from_init, RunningStat.stdSq, RunningStat.mean,
      List.zip_cons_cons, List.map_cons] at ih ⊢
    rw [List.cons.injEq]
    refine ⟨?_, ih⟩
    rw [mul_div_cancel_right₀ _ hc0, mul_div_cancel_right₀ _ hc0]
    ring_nf

/-- **C10** (amended): for `init_count > 0`, equal-length vectors, and
`init_std` entries all at least `1/10` (i.e. nonnegative with squares at
least the variance floor `1e-2`), `set_from_init` followed by the `mean`
and `std` properties returns exactly `init_mean` and `init_std`.  (Mere
`init_std² ≥ 1e-2` is not enough: a negative entry cannot be recovered
from the nonnegative square root.) -/
theorem c10_set_from_init_roundtrip (rs : RunningStat) (init_mean init_std : List ℚ)
    (init_count : ℚ) (hc : 0 < init_count) (hlen : init_mean.length = init_std.length)
    (hstd : ∀ q ∈ init_std, 1 / 10 ≤ q) :
    (rs.set_from_init init_mean init_std init_count).mean = init_mean ∧
    (rs.set_from_init init_mean init_std init_count).stdIs init_std := by
  have hc0 : init_count ≠ 0 := ne_of_gt hc
  have hmean : (rs.set_from_init init_mean init_std init_count).mean = init_mean := by
    simp only [RunningStat.set_from_init, RunningStat.mean, List.map_map]
    have h : ∀ a ∈ init_mean,
        ((fun x => x / init_count) ∘ (fun x => x * init_count)) a = a :=
      fun a _ => mul_div_cancel_right₀ a hc0
    rw [List.map_congr_left h]
    simp
  have hsq : (rs.set_from_init init_mean init_std init_count).stdSq =
      init_std.map (fun q => q ^ 2) := by
    rw [stdSq_set_from_init rs init_count hc0 init_mean init_std hlen]
    refine List.map_congr_left (fun q hq => ?_)
    have h1 : (1 : ℚ) / 100 ≤ q ^ 2 := by
      have := pow_le_pow_left₀ (by norm_num : (0:ℚ) ≤ 1 / 10) (hstd q hq) 2
      calc (1 : ℚ) / 100 = (1 / 10) ^ 2 := by norm_num
        _ ≤ q ^ 2 := this
    exact max_eq_left h1
  refine ⟨hmean, ?_, ?_⟩
  · simp [hsq]
  · intro i hi
    have hiq : i < init_std.length := hi
    have hmem := getD_mem_of_lt init_std (0 : ℚ) hiq
    have hle := hstd _ hmem
    refine ⟨le_trans (by norm_num) hle, ?_⟩
    rw [hsq, getD_map_lt (fun q => q ^ 2) init_std 0 0 hiq]

/-- **C10** witness: the amended round trip at the concrete input
`set_from_init([3], [1], 2)`. -/
theorem c10_witness :
    ((RunningStat.init 1 (1 / 100)).set_from_init [3] [1] 2).mean = [3] ∧
    ((RunningStat.init 1 (1 / 100)).set_from_init [3] [1] 2).stdIs [1] :=
  c10_set_from_init_roundtrip (RunningStat.init 1 (1 / 100)) [3] [1] 2 (by norm_num)
    (by decide)
    (by
      intro q hq
      rw [List.mem_singleton] at hq
      rw [hq]
      norm_num)

/-- **C10** counterexample to the claim as stated: `init_std = [-1]`
satisfies `init_std² ≥ 1e-2`, but after
`set_from_init([0], [-1], 1)` the `std` property reads `[1]`, not
`[-1]` — the round trip fails for negative `init_std`. -/
theorem c10_counterexample :
    ((RunningStat.init 1 (1 / 100)).set_from_init [0] [-1] 1).mean = [0] ∧
    ¬ ((RunningStat.init 1 (1 / 100)).set_from_init [0] [-1] 1).stdIs [-1] := by
  constructor
  · norm_num [RunningStat.set_from_init, RunningStat.mean]
  · rintro ⟨-, h⟩
    have h0 := (h 0 (by norm_num)).1
    norm_num at h0

/-! ## C2: return_proc_mode validation timing -/

/-- **C2** (amended): an unsupported `return_proc_mode` is not rejected at
startup — the pre-loop validation reads only `episode_cutoff_mode`, so
its outcome is independent of `return_proc_mode` — and the
`NotImplementedError` is instead raised by the first iteration's
aggregation, after the first `Task` has been declared. -/
theorem c2_return_proc_mode_checked_at_aggregation (cfg : Config)
    (hmode : cfg.return_proc_mode ≠ "centered_rank" ∧ cfg.return_proc_mode ≠ "sign" ∧
      cfg.return_proc_mode ≠ "centered_sign_rank") :
    (∀ rpm : String, masterStartup { cfg with return_proc_mode := rpm } = masterStartup cfg) ∧
    (∀ rf sf : List ℚ, processReturns cfg.return_proc_mode rf sf =
      .error cfg.return_proc_mode) ∧
    (∀ (t : SharedNoiseTable) (np : Nat) (theta : List ℚ) (ob : RunningStat)
        (needs : Bool) (tsl : Option Int) (curr : Nat) (msgs : List (Nat × Result))
        (s : CollectState),
      collectLoop cfg.episodes_per_batch cfg.timesteps_per_batch needs curr
        (initCollectState ob 0 0) msgs = some s →
      master_first_iteration cfg t np theta ob needs tsl curr msgs =
        ({ params := theta, timestep_limit := tsl },
          some (.error cfg.return_proc_mode))) := by
  obtain ⟨h1, h2, h3⟩ := hmode
  have hproc : ∀ rf sf : List ℚ, processReturns cfg.return_proc_mode rf sf =
      .error cfg.return_proc_mode := by
    intro rf sf
    simp [processReturns, h1, h2, h3]
  refine ⟨fun _ => rfl, hproc, ?_⟩
  intro t np theta ob needs tsl curr msgs s hcollect
  simp [master_first_iteration, hcollect, aggregate, hproc]

/-- **C2** counterexample to the claim as stated: with
`return_proc_mode = "bogus"` (and a valid `episode_cutoff_mode`), startup
succeeds, the first task is published, the COLLECT loop runs, and only
then does aggregation fail — so the error is not raised at startup before
a task is published. -/
theorem c2_counterexample :
    masterStartup ⟨0, 0, 1, 0, 0, 0, 0, "bogus", "env_default"⟩ =
      .ok ⟨none, none, none, false⟩ ∧
    master_first_iteration ⟨0, 0, 1, 0, 0, 0, 0, "bogus", "env_default"⟩ ⟨[]⟩ 0 []
        (RunningStat.init 0 0) false none 0
        [(0, ⟨7, .noise ⟨[0], [(1, -1)], [(1, -1)], [(10, 10)], [], [], 0⟩⟩)] =
      ({ params := [], timestep_limit := none }, some (.error "bogus")) := by
  constructor <;> decide

/-- **C2** witness: the amended theorem applied at a concrete
configuration. -/
theorem c2_witness :
    (("bogus" : String) ≠ "centered_rank" ∧ ("bogus" : String) ≠ "sign" ∧
      ("bogus" : String) ≠ "centered_sign_rank") ∧
    processReturns "bogus" [] [] = .error "bogus" :=
  ⟨by decide,
    (c2_return_proc_mode_checked_at_aggregation
      ⟨0, 0, 1, 0, 0, 0, 0, "bogus", "env_default"⟩ (by decide)).2.1 [] []⟩

/-! ## C4: batched_weighted_sum equals the global dot product -/

lemma dotQ_append {M : Type} [AddCommMonoid M] [SMul ℚ M]
    (ws₁ ws₂ : List ℚ) (vs₁ vs₂ : List M) (h : ws₁.length = vs₁.length) :
    dotQ (ws₁ ++ ws₂) (vs₁ ++ vs₂) = dotQ ws₁ vs₁ + dotQ ws₂ vs₂ := by
  simp [dotQ, List.zip_append h]

lemma bws_foldl_shift {M : Type} [AddCommMonoid M] [SMul ℚ M]
    (z : List (List ℚ × List M)) (a : M) (n : Nat) :
    z.foldl (fun acc p => (acc.1 + dotQ p.1 p.2, acc.2 + p.1.length)) (a, n) =
      (a + (z.foldl (fun acc p => (acc.1 + dotQ p.1 p.2, acc.2 + p.1.length)) (0, 0)).1,
        n + (z.foldl (fun acc p => (acc.1 + dotQ p.1 p.2, acc.2 + p.1.length)) (0, 0)).2) := by
  induction z generalizing a n with
  | nil => simp
  | cons p ps ih =>
    simp only [List.foldl_cons]
    rw [ih, ih (0 + dotQ p.1 p.2) (0 + p.1.length)]
    simp [add_assoc]

lemma bws_spec {M : Type} [AddCommMonoid M] [SMul ℚ M] :
    ∀ (ws : List ℚ) (vs : List M), ws.length = vs.length → ∀ b : Nat, 1 ≤ b →
      batched_weighted_sum ws vs b = (dotQ ws vs, ws.length)
  | [], [], _, b, _ => by
    simp [batched_weighted_sum, itergroups, dotQ]
  | [], v :: vs, h, b, _ => by simp at h
  | w :: ws, [], h, b, _ => by simp at h
  | w :: ws, v :: vs, h, b, hb => by
    have hlen : ws.length = vs.length := by simpa using h
    have hdrop : (ws.drop (b - 1)).length = (vs.drop (b - 1)).length := by
      simp [hlen]
    have ih := bws_spec (ws.drop (b - 1)) (vs.drop (b - 1)) hdrop b hb
    have htake : (w :: ws.take (b - 1)).length = (v :: vs.take (b - 1)).length := by
      simp [hlen]
    have hsplitw : w :: ws = (w :: ws.take (b - 1)) ++ ws.drop (b - 1) := by
      simp
    have hsplitv : v :: vs = (v :: vs.take (b - 1)) ++ vs.drop (b - 1) := by
      simp
    simp only [batched_weighted_sum, itergroups, List.zip_cons_cons, List.foldl_cons]
    rw [bws_foldl_shift]
    have hrest : ((itergroups b (ws.drop (b - 1))).zip
          (itergroups b (vs.drop (b - 1)))).foldl
        (fun acc p => (acc.1 + dotQ p.1 p.2, acc.2 + p.1.length)) (0, 0) =
        (dotQ (ws.drop (b - 1)) (vs.drop (b - 1)), (ws.drop (b - 1)).length) := by
      simpa [batched_weighted_sum] using ih
    rw [hrest]
    have hdot : dotQ (w :: ws) (v :: vs) =
        dotQ (w :: ws.take (b - 1)) (v :: vs.take (b - 1)) +
          dotQ (ws.drop (b - 1)) (vs.drop (b - 1)) := by
      conv_lhs => rw [hsplitw, hsplitv]
      exact dotQ_append _ _ _ _ htake
    have hlen2 : (w :: ws).length =
        (w :: ws.take (b - 1)).length + (ws.drop (b - 1)).length := by
      simp only [List.length_cons, List.length_take, List.length_drop]
      omega
    rw [Prod.mk.injEq]
    constructor
    · rw [hdot]
      abel
    · rw [hlen2]
      simp [Nat.add_comm]
termination_by ws => ws.length
decreasing_by
  simp only [List.length_drop, List.length_cons]
  omega

/-- **C4**: for equal-length weight and vector sequences and any batch
size `b ≥ 1`, `batched_weighted_sum` returns the common length as its
count and, in exact arithmetic, the single global dot product
`Σ wᵢ • vᵢ` as its sum — independent of the choice of `b`. -/
theorem c4_batched_weighted_sum {M : Type} [AddCommMonoid M] [SMul ℚ M]
    (weights : List ℚ) (vecs : List M) (b : Nat)
    (hlen : weights.length = vecs.length) (hb : 1 ≤ b) :
    batched_weighted_sum weights vecs b = (dotQ weights vecs, weights.length) :=
  bws_spec weights vecs hlen b hb

/-- **C4** witness: the theorem applied at concrete input (batch size 2
over 3 items). -/
theorem c4_batched_weighted_sum_witness :
    (([(1 : ℚ), 2, 3] : List ℚ).length = ([(4 : ℚ), 5, 6] : List ℚ).length ∧ 1 ≤ 2) ∧
    batched_weighted_sum [(1 : ℚ), 2, 3] ([(4 : ℚ), 5, 6] : List ℚ) 2 =
      (dotQ [(1 : ℚ), 2, 3] [(4 : ℚ), 5, 6], ([(1 : ℚ), 2, 3] : List ℚ).length) :=
  ⟨⟨by decide, by decide⟩,
    c4_batched_weighted_sum [(1 : ℚ), 2, 3] [(4 : ℚ), 5, 6] 2 (by decide) (by decide)⟩

/-! ## C5: compute_centered_ranks -/

lemma argsort_perm (x : List ℚ) : List.Perm (argsort x) (List.range x.length) :=
  List.perm_insertionSort _ _

lemma argsort_nodup (x : List ℚ) : (argsort x).Nodup :=
  (argsort_perm x).nodup_iff.mpr (List.nodup_range _)

lemma argsort_length (x : List ℚ) : (argsort x).length = x.length := by
  simpa using (argsort_perm x).length_eq

lemma argsort_sorted (x : List ℚ) : (argsort x).Sorted (RankLE x) :=
  List.sorted_insertionSort _ _

lemma mem_argsort (x : List ℚ) {i : Nat} (hi : i < x.length) : i ∈ argsort x := by
  rw [(argsort_perm x).mem_iff]
  exact List.mem_range.mpr hi

lemma compute_ranks_length (x : List ℚ) : (compute_ranks x).length = x.length := by
  simp [compute_ranks]

lemma compute_ranks_getD (x : List ℚ) {i : Nat} (hi : i < x.length) :
    (compute_ranks x).getD i 0 = (argsort x).indexOf i := by
  unfold compute_ranks
  have hlen : i < (List.range x.length).length := by simpa using hi
  rw [getD_map_lt _ _ 0 0 hlen, List.getD_eq_getElem?_getD,
    List.getElem?_eq_getElem hlen]
  simp

lemma indexOf_argsort_lt (x : List ℚ) {i : Nat} (hi : i < x.length) :
    (argsort x).indexOf i < x.length := by
  have h := List.indexOf_lt_length.mpr (mem_argsort x hi)
  rwa [argsort_length] at h

lemma argsort_map_indexOf (x : List ℚ) :
    (argsort x).map (fun i => (argsort x).indexOf i) = List.range x.length := by
  apply List.ext_getElem
  · simp [argsort_length]
  · intro n h1 h2
    simp only [List.getElem_map, List.getElem_range]
    exact List.indexOf_getElem (argsort_nodup x) n (by simpa using h1)

lemma compute_ranks_perm (x : List ℚ) :
    List.Perm (compute_ranks x) (List.range x.length) := by
  have h := (argsort_perm x).symm.map (fun i => (argsort x).indexOf i)
  rw [argsort_map_indexOf] at h
  exact h

lemma sum_range_cast (n : Nat) :
    ((List.range n).map (fun r : Nat => (r : ℚ))).sum = n * ((n : ℚ) - 1) / 2 := by
  induction n with
  | zero => simp
  | succ m ih =>
    rw [List.range_succ, List.map_append, List.sum_append]
    simp only [List.map_cons, List.map_nil, List.sum_cons, List.sum_nil, ih]
    push_cast
    ring

lemma sum_map_affine (l : List Nat) (c : ℚ) :
    (l.map (fun r : Nat => (r : ℚ) / c - 1 / 2)).sum =
      (l.map (fun r : Nat => (r : ℚ))).sum / c - l.length / 2 := by
  induction l with
  | nil => simp
  | cons a t ih =>
    simp only [List.map_cons, List.sum_cons, List.length_cons, ih]
    push_cast
    ring

lemma indexOf_argsort_strictMono (x : List ℚ) {i j : Nat}
    (hi : i < x.length) (hj : j < x.length) (hij : x.getD i 0 < x.getD j 0) :
    (argsort x).indexOf i < (argsort x).indexOf j := by
  have hmi : i ∈ argsort x := mem_argsort x hi
  have hmj : j ∈ argsort x := mem_argsort x hj
  have hii : (argsort x).indexOf i < (argsort x).length := List.indexOf_lt_length.mpr hmi
  have hjj : (argsort x).indexOf j < (argsort x).length := List.indexOf_lt_length.mpr hmj
  by_contra hle
  push_neg at hle
  rcases Nat.lt_or_ge ((argsort x).indexOf j) ((argsort x).indexOf i) with hlt | hge
  · have hp := List.pairwise_iff_getElem.mp (argsort_sorted x) _ _ hjj hii hlt
    rw [List.getElem_indexOf hjj, List.getElem_indexOf hii] at hp
    rcases hp with h | ⟨he, -⟩
    · exact absurd hij (not_lt.mpr h.le)
    · rw [he] at hij
      exact lt_irrefl _ hij
  · have heq : (argsort x).indexOf i = (argsort x).indexOf j := le_antisymm hge hle
    have hij2 : i = j := (List.indexOf_inj hmi hmj).mp heq
    rw [hij2] at hij
    exact lt_irrefl _ hij

lemma compute_centered_ranks_getD (x : List ℚ) {i : Nat} (hi : i < x.length) :
    (compute_centered_ranks x).getD i 0 =
      (((argsort x).indexOf i : ℚ)) / ((x.length : ℚ) - 1) - 1 / 2 := by
  unfold compute_centered_ranks
  have hlen : i < (compute_ranks x).length := by
    rw [compute_ranks_length]
    exact hi
  rw [getD_map_lt _ _ 0 0 hlen, compute_ranks_getD x hi]

/-- **C5**: on any input of more than one value, `compute_centered_ranks`
preserves the shape, produces entries in `[-1/2, 1/2]`, sums to zero
(hence has mean zero), and is strictly order-preserving: a strictly
smaller input entry gets a strictly smaller output entry. -/
theorem c5_centered_ranks (x : List ℚ) (hx : 1 < x.length) :
    (compute_centered_ranks x).length = x.length ∧
    (∀ q ∈ compute_centered_ranks x, -(1 / 2) ≤ q ∧ q ≤ 1 / 2) ∧
    (compute_centered_ranks x).sum = 0 ∧
    (∀ i j, i < x.length → j < x.length → x.getD i 0 < x.getD j 0 →
      (compute_centered_ranks x).getD i 0 < (compute_centered_ranks x).getD j 0) := by
  have hn1 : (0 : ℚ) < (x.length : ℚ) - 1 := by
    have : (1 : ℚ) < (x.length : ℚ) := by exact_mod_cast hx
    linarith
  refine ⟨by simp [compute_centered_ranks, compute_ranks], ?_, ?_, ?_⟩
  · intro q hq
    obtain ⟨r, hr, rfl⟩ := List.mem_map.mp hq
    have hrlt : r < x.length := by
      have := (compute_ranks_perm x).mem_iff.mp hr
      exact List.mem_range.mp this
    have hr1 : (r : ℚ) ≤ (x.length : ℚ) - 1 := by
      have hr2 : r + 1 ≤ x.length := hrlt
      have : (r : ℚ) + 1 ≤ (x.length : ℚ) := by exact_mod_cast hr2
      linarith
    have h0 : (0 : ℚ) ≤ (r : ℚ) / ((x.length : ℚ) - 1) :=
      div_nonneg (by positivity) hn1.le
    have h1 : (r : ℚ) / ((x.length : ℚ) - 1) ≤ 1 :=
      (div_le_one hn1).mpr hr1
    constructor <;> linarith
  · have hperm : List.Perm
        ((compute_ranks x).map (fun r : Nat => (r : ℚ) / ((x.length : ℚ) - 1) - 1 / 2))
        ((List.range x.length).map (fun r : Nat => (r : ℚ) / ((x.length : ℚ) - 1) - 1 / 2)) :=
      (compute_ranks_perm x).map _
    rw [compute_centered_ranks, hperm.sum_eq, sum_map_affine, sum_range_cast]
    rw [List.length_range]
    field_simp
    ring
  · intro i j hi hj hij
    rw [compute_centered_ranks_getD x hi, compute_centered_ranks_getD x hj]
    have hmono := indexOf_argsort_strictMono x hi hj hij
    have hcast : (((argsort x).indexOf i : ℚ)) < ((argsort x).indexOf j : ℚ) := by
      exact_mod_cast hmono
    have hdiv := (div_lt_div_iff_of_pos_right hn1).mpr hcast
    linarith

/-- **C5** witness: the theorem applied to the concrete input
`[5, 1, 3]`. -/
theorem c5_centered_ranks_witness :
    1 < ([(5 : ℚ), 1, 3] : List ℚ).length ∧
    ((compute_centered_ranks [(5 : ℚ), 1, 3]).length = ([(5 : ℚ), 1, 3] : List ℚ).length ∧
      (∀ q ∈ compute_centered_ranks [(5 : ℚ), 1, 3], -(1 / 2) ≤ q ∧ q ≤ 1 / 2) ∧
      (compute_centered_ranks [(5 : ℚ), 1, 3]).sum = 0 ∧
      (∀ i j, i < ([(5 : ℚ), 1, 3] : List ℚ).length → j < ([(5 : ℚ), 1, 3] : List ℚ).length →
        ([(5 : ℚ), 1, 3] : List ℚ).getD i 0 < ([(5 : ℚ), 1, 3] : List ℚ).getD j 0 →
        (compute_centered_ranks [(5 : ℚ), 1, 3]).getD i 0 <
          (compute_centered_ranks [(5 : ℚ), 1, 3]).getD j 0)) :=
  ⟨by decide, c5_centered_ranks [(5 : ℚ), 1, 3] (by decide)⟩

/-! ## C1 / C8: the COLLECT loop -/

lemma collectLoop_exit (epb tpb : Nat) (needs : Bool) (curr : Nat) :
    ∀ (msgs : List (Nat × Result)) (s t : CollectState),
      collectLoop epb tpb needs curr s msgs = some t →
      epb ≤ t.num_episodes_popped ∧ tpb ≤ t.num_timesteps_popped := by
  intro msgs
  induction msgs with
  | nil =>
    intro s t h
    simp only [collectLoop] at h
    by_cases hc : epb ≤ s.num_episodes_popped ∧ tpb ≤ s.num_timesteps_popped
    · rw [if_pos hc] at h
      injection h with h2
      rw [← h2]
      exact hc
    · rw [if_neg hc] at h
      cases h
  | cons m rest ih =>
    intro s t h
    simp only [collectLoop] at h
    by_cases hc : epb ≤ s.num_episodes_popped ∧ tpb ≤ s.num_timesteps_popped
    · rw [if_pos hc] at h
      injection h with h2
      rw [← h2]
      exact hc
    · rw [if_neg hc] at h
      exact ih _ _ h

lemma collectLoop_exit_now (epb tpb : Nat) (needs : Bool) (curr : Nat)
    (s : CollectState) (msgs : List (Nat × Result))
    (h : epb ≤ s.num_episodes_popped ∧ tpb ≤ s.num_timesteps_popped) :
    collectLoop epb tpb needs curr s msgs = some s := by
  cases msgs with
  | nil =>
    simp only [collectLoop]
    rw [if_pos h]
  | cons m rest =>
    simp only [collectLoop]
    rw [if_pos h]

lemma collectLoop_pop (epb tpb : Nat) (needs : Bool) (curr : Nat)
    (s : CollectState) (m : Nat × Result) (rest : List (Nat × Result))
    (h : ¬(epb ≤ s.num_episodes_popped ∧ tpb ≤ s.num_timesteps_popped)) :
    collectLoop epb tpb needs curr s (m :: rest) =
      collectLoop epb tpb needs curr (processResult needs curr s m.1 m.2) rest := by
  conv_lhs => rw [collectLoop]
  rw [if_neg h]

lemma processResult_counters (needs : Bool) (curr : Nat) (s : CollectState)
    (tid : Nat) (r : Result) :
    (processResult needs curr s tid r).episodes_so_far =
      s.episodes_so_far + r.numEpisodes ∧
    (processResult needs curr s tid r).timesteps_so_far =
      s.timesteps_so_far + r.numTimesteps ∧
    (processResult needs curr s tid r).num_episodes_popped =
      s.num_episodes_popped +
        (if tid = curr ∧ r.isNoise = true then r.numEpisodes else 0) ∧
    (processResult needs curr s tid r).num_timesteps_popped =
      s.num_timesteps_popped +
        (if tid = curr ∧ r.isNoise = true then r.numTimesteps else 0) ∧
    (processResult needs curr s tid r).curr_task_results =
      s.curr_task_results ++
        (match r.body with
          | .noise d => if tid = curr then [d] else []
          | .eval _ _ => []) ∧
    (processResult needs curr s tid r).num_results_skipped =
      s.num_results_skipped +
        (if tid ≠ curr ∧ r.isNoise = true then 1 else 0) := by
  obtain ⟨wid, body⟩ := r
  cases body with
  | eval ret len =>
    by_cases htid : tid = curr <;>
      simp [processResult, Result.numEpisodes, Result.numTimesteps, Result.isNoise, htid]
  | noise d =>
    by_cases htid : tid = curr
    · by_cases hob : needs = true ∧ 0 < d.ob_count <;>
        simp [processResult, Result.numEpisodes, Result.numTimesteps, Result.isNoise,
          htid, hob]
    · simp [processResult, Result.numEpisodes, Result.numTimesteps, Result.isNoise, htid]

/-- **C1**: the COLLECT loop pops another result exactly while the
per-task counters have not both reached their thresholds, and exits with
both thresholds met; each popped result always adds its episode and
timestep counts to the global `episodes_so_far` / `timesteps_so_far`
counters, while only noise-mode results whose task id equals the current
task id add to the two per-task counters (and to the accepted result
list; stale noise results are counted as skipped instead). -/
theorem c1_collect_loop (epb tpb : Nat) (needs : Bool) (curr : Nat) :
    (∀ (msgs : List (Nat × Result)) (s t : CollectState),
      collectLoop epb tpb needs curr s msgs = some t →
      epb ≤ t.num_episodes_popped ∧ tpb ≤ t.num_timesteps_popped) ∧
    (∀ (msgs : List (Nat × Result)) (s : CollectState),
      epb ≤ s.num_episodes_popped ∧ tpb ≤ s.num_timesteps_popped →
      collectLoop epb tpb needs curr s msgs = some s) ∧
    (∀ (m : Nat × Result) (rest : List (Nat × Result)) (s : CollectState),
      ¬(epb ≤ s.num_episodes_popped ∧ tpb ≤ s.num_timesteps_popped) →
      collectLoop epb tpb needs curr s (m :: rest) =
        collectLoop epb tpb needs curr (processResult needs curr s m.1 m.2) rest) ∧
    (∀ (s : CollectState) (tid : Nat) (r : Result),
      (processResult needs curr s tid r).episodes_so_far =
        s.episodes_so_far + r.numEpisodes ∧
      (processResult needs curr s tid r).timesteps_so_far =
        s.timesteps_so_far + r.numTimesteps ∧
      (processResult needs curr s tid r).num_episodes_popped =
        s.num_episodes_popped +
          (if tid = curr ∧ r.isNoise = true then r.numEpisodes else 0) ∧
      (processResult needs curr s tid r).num_timesteps_popped =
        s.num_timesteps_popped +
          (if tid = curr ∧ r.isNoise = true then r.numTimesteps else 0)) :=
  ⟨collectLoop_exit epb tpb needs curr,
    fun msgs s h => collectLoop_exit_now epb tpb needs curr s msgs h,
    fun m rest s h => collectLoop_pop epb tpb needs curr s m rest h,
    fun s tid r =>
      ⟨(processResult_counters needs curr s tid r).1,
        (processResult_counters needs curr s tid r).2.1,
        (processResult_counters needs curr s tid r).2.2.1,
        (processResult_counters needs curr s tid r).2.2.2.1⟩⟩

lemma processResult_inv (needs : Bool) (curr : Nat) (s : CollectState)
    (tid : Nat) (r : Result)
    (h : s.curr_task_results = [] →
      s.num_episodes_popped = 0 ∧ s.num_timesteps_popped = 0) :
    (processResult needs curr s tid r).curr_task_results = [] →
      (processResult needs curr s tid r).num_episodes_popped = 0 ∧
      (processResult needs curr s tid r).num_timesteps_popped = 0 := by
  intro hnil
  obtain ⟨-, -, hep, htp, hres, -⟩ := processResult_counters needs curr s tid r
  rw [hres] at hnil
  rcases List.append_eq_nil.mp hnil with ⟨h1, h2⟩
  obtain ⟨he, ht⟩ := h h1
  have hcond : ¬(tid = curr ∧ r.isNoise = true) := by
    rintro ⟨hteq, hnz⟩
    obtain ⟨wid, body⟩ := r
    cases body with
    | eval a b => simp [Result.isNoise] at hnz
    | noise d => simp [hteq] at h2
  constructor
  · rw [hep, he, if_neg hcond]
  · rw [htp, ht, if_neg hcond]

lemma collectLoop_inv (epb tpb : Nat) (needs : Bool) (curr : Nat) :
    ∀ (msgs : List (Nat × Result)) (s t : CollectState),
      (s.curr_task_results = [] →
        s.num_episodes_popped = 0 ∧ s.num_timesteps_popped = 0) →
      collectLoop epb tpb needs curr s msgs = some t →
      (t.curr_task_results = [] →
        t.num_episodes_popped = 0 ∧ t.num_timesteps_popped = 0) := by
  intro msgs
  induction msgs with
  | nil =>
    intro s t hinv h
    simp only [collectLoop] at h
    by_cases hc : epb ≤ s.num_episodes_popped ∧ tpb ≤ s.num_timesteps_popped
    · rw [if_pos hc] at h
      injection h with h2
      rw [← h2]
      exact hinv
    · rw [if_neg hc] at h
      cases h
  | cons m rest ih =>
    intro s t hinv h
    simp only [collectLoop] at h
    by_cases hc : epb ≤ s.num_episodes_popped ∧ tpb ≤ s.num_timesteps_popped
    · rw [if_pos hc] at h
      injection h with h2
      rw [← h2]
      exact hinv
    · rw [if_neg hc] at h
      exact ih _ _ (processResult_inv needs curr s m.1 m.2 hinv) h

/-- **C8** (amended): whenever at least one of `episodes_per_batch`,
`timesteps_per_batch` is positive, the COLLECT loop can only exit after
accepting at least one current-task noise-mode result, so the skip
fraction's denominator (skipped + accepted) is strictly positive.  (With
`episodes_per_batch = timesteps_per_batch = 0` the loop exits at once
with nothing collected and the denominator is zero, see the
counterexample.) -/
theorem c8_skip_fraction_denominator (epb tpb : Nat) (needs : Bool) (curr : Nat)
    (ob : RunningStat) (e0 t0 : Nat) (msgs : List (Nat × Result)) (t : CollectState)
    (hpos : 0 < epb ∨ 0 < tpb)
    (hrun : collectLoop epb tpb needs curr (initCollectState ob e0 t0) msgs = some t) :
    0 < t.curr_task_results.length ∧
    0 < t.num_results_skipped + t.curr_task_results.length := by
  have hexit := collectLoop_exit epb tpb needs curr msgs _ _ hrun
  have hinv := collectLoop_inv epb tpb needs curr msgs _ _
    (by intro _; simp [initCollectState]) hrun
  rcases Nat.eq_zero_or_pos t.curr_task_results.length with h0 | hpos2
  · exfalso
    have hnil : t.curr_task_results = [] := List.length_eq_zero.mp h0
    obtain ⟨he, ht⟩ := hinv hnil
    rcases hpos with hp | hp
    · omega
    · omega
  · exact ⟨hpos2, by omega⟩

/-- **C8** counterexample to the claim as stated: with the configuration
`episodes_per_batch = 0, timesteps_per_batch = 0`, the COLLECT loop exits
immediately with no accepted result and no skipped result, so the skip
fraction's denominator is zero. -/
theorem c8_counterexample :
    collectLoop 0 0 false 0 (initCollectState (RunningStat.init 0 0) 0 0) [] =
      some (initCollectState (RunningStat.init 0 0) 0 0) ∧
    (initCollectState (RunningStat.init 0 0) 0 0).num_results_skipped +
      (initCollectState (RunningStat.init 0 0) 0 0).curr_task_results.length = 0 := by
  constructor <;> decide

/-- **C8** witness: the amended theorem applied to a concrete run with
`episodes_per_batch = 1`, one delivered current-task noise result. -/
theorem c8_witness :
    0 < (⟨[⟨[0], [(1, -1)], [(1, -1)], [(0, 0)], [], [], 0⟩], [], [], [7],
        RunningStat.init 0 0, 0, 2, 0, 0, 2, 0⟩ : CollectState).curr_task_results.length ∧
    0 < (⟨[⟨[0], [(1, -1)], [(1, -1)], [(0, 0)], [], [], 0⟩], [], [], [7],
        RunningStat.init 0 0, 0, 2, 0, 0, 2, 0⟩ : CollectState).num_results_skipped +
      (⟨[⟨[0], [(1, -1)], [(1, -1)], [(0, 0)], [], [], 0⟩], [], [], [7],
        RunningStat.init 0 0, 0, 2, 0, 0, 2, 0⟩ : CollectState).curr_task_results.length :=
  c8_skip_fraction_denominator 1 0 false 0 (RunningStat.init 0 0) 0 0
    [(0, ⟨7, .noise ⟨[0], [(1, -1)], [(1, -1)], [(0, 0)], [], [], 0⟩⟩)]
    (⟨[⟨[0], [(1, -1)], [(1, -1)], [(0, 0)], [], [], 0⟩], [], [], [7],
        RunningStat.init 0 0, 0, 2, 0, 0, 2, 0⟩ : CollectState)
    (Or.inl (by decide)) (by decide)

/-! ## C7: episode_cutoff_mode and the adaptive timestep limit -/

/-- **C7**: parsing `adaptive:100,0.5,2.0` yields the adaptive limit state
(start 100, threshold 1/2, ratio 2); under the adaptive mode the ADAPT
step multiplies the limit by the ratio (integer-truncated) exactly when
the fraction of this iteration's episode lengths equal to the current
limit reaches the threshold and leaves it unchanged otherwise; under
`env_default` the limit is `none` at startup, stays `none`, and every
declared `Task` carries no timestep limit; and every mode string that is
neither `env_default` nor of the `adaptive:` form is a fatal startup
error. -/
theorem c7_episode_cutoff_mode :
    parse_episode_cutoff_mode "adaptive:100,0.5,2.0" =
      .ok ⟨some 100, some (1 / 2), some 2, true⟩ ∧
    (∀ th ra : ℚ, ∀ tl : Int, ∀ lengths : List (Nat × Nat),
      (th ≤ fracAtLimit (flattenLengths lengths) tl →
        adapt_tslimit true th ra lengths (some tl) = some (truncQ (ra * (tl : ℚ)))) ∧
      (¬ th ≤ fracAtLimit (flattenLengths lengths) tl →
        adapt_tslimit true th ra lengths (some tl) = some tl)) ∧
    parse_episode_cutoff_mode "env_default" = .ok ⟨none, none, none, false⟩ ∧
    (∀ th ra : ℚ, ∀ lengths : List (Nat × Nat),
      adapt_tslimit false th ra lengths none = none) ∧
    (∀ (cfg : Config) (t : SharedNoiseTable) (np : Nat) (theta : List ℚ)
        (ob : RunningStat) (needs : Bool) (curr : Nat) (msgs : List (Nat × Result)),
      (master_first_iteration cfg t np theta ob needs none curr msgs).1.timestep_limit =
        none) ∧
    (∀ mode : String, ¬ mode.data.take 9 = "adaptive:".data → mode ≠ "env_default" →
      parse_episode_cutoff_mode mode = .error mode) := by
  refine ⟨?_, ?_, by decide, ?_, ?_, ?_⟩
  · have h : parse_episode_cutoff_mode "adaptive:100,0.5,2.0" =
        Except.ok (⟨some 100, some (((0 : Nat) : ℚ) + ((5 : Nat) : ℚ) / (10 : ℚ) ^ 1),
          some (((2 : Nat) : ℚ) + ((0 : Nat) : ℚ) / (10 : ℚ) ^ 1), true⟩ : TsStartup) := rfl
    rw [h]
    norm_num
  · intro th ra tl lengths
    constructor
    · intro hth
      simp [adapt_tslimit, hth]
    · intro hth
      simp [adapt_tslimit, hth]
  · intro th ra lengths
    simp [adapt_tslimit]
  · intro cfg t np theta ob needs curr msgs
    cases h : collectLoop cfg.episodes_per_batch cfg.timesteps_per_batch needs curr
        (initCollectState ob 0 0) msgs with
    | none => simp [master_first_iteration, h]
    | some s => simp [master_first_iteration, h]
  · intro mode h1 h2
    unfold parse_episode_cutoff_mode
    rw [if_neg h1, if_neg h2]

/-! ## C9: single-pair gradient direction -/

lemma centered_ranks_pair : compute_centered_ranks [(1 : ℚ), -1] = [1 / 2, -(1 / 2)] := by
  have h0 : compute_ranks [(1 : ℚ), -1] = [1, 0] := by decide
  simp only [compute_centered_ranks, h0]
  norm_num

/-- **C9** (amended): with `return_proc_mode = "centered_rank"` and a
single accepted noise result holding one antithetic pair with returns
`(1, -1)`, the processed scores are `[+1/2, -1/2]` (not `[+1/4, -1/4]`),
the pair's weight is `1/2 - (-1/2) = 1` (not `1/2`), and after dividing
by the episode count 2 the gradient is `(1/2) •` the noise vector at the
reported index — a positive scalar multiple of that vector, as the claim
concludes. -/
theorem c9_single_pair_gradient (t : SharedNoiseTable) (idx np : Nat) :
    processReturns "centered_rank" (flattenPairs [(1, -1)]) (flattenPairs [(1, -1)]) =
      .ok [1 / 2, -(1 / 2)] ∧
    pairDiffs [1 / 2, -(1 / 2)] = [1] ∧
    ∃ c : ℚ, 0 < c ∧
      aggregate "centered_rank" t np [⟨[idx], [(1, -1)], [(1, -1)], [(10, 10)], [], [], 0⟩] =
        .ok (c • noiseVec t idx np) := by
  refine ⟨?_, by norm_num [pairDiffs], ⟨1 / 2, by norm_num, ?_⟩⟩
  · simp only [processReturns, if_pos rfl, if_true, flattenPairs, List.flatMap_cons,
      List.flatMap_nil, List.append_nil, centered_ranks_pair]
  · simp only [aggregate, processReturns, flattenPairs, List.map_cons, List.map_nil,
      List.flatten, List.flatMap_cons, List.flatMap_nil, List.append_nil, if_pos rfl,
      centered_ranks_pair]
    norm_num [pairDiffs, batched_weighted_sum, itergroups, dotQ, one_smul]

/-- **C9** counterexample to the claim as stated: the centered-rank
scores of the two distinct returns `[1, -1]` are `[+1/2, -1/2]`, not the
claimed `[+1/4, -1/4]` (and hence the pair's weight is `1`, not `1/2`). -/
theorem c9_counterexample :
    compute_centered_ranks [(1 : ℚ), -1] = [1 / 2, -(1 / 2)] ∧
    compute_centered_ranks [(1 : ℚ), -1] ≠ [1 / 4, -(1 / 4)] := by
  refine ⟨centered_ranks_pair, ?_⟩
  rw [centered_ranks_pair]
  intro h
  have h1 : (1 : ℚ) / 2 = 1 / 4 := by
    have := List.head_eq_of_cons_eq h
    exact this
  norm_num at h1

end ES
